import Mathlib

/-!
Verification of the seisstream repository against its specification.

This file shallowly embeds the operations of the detector and locator
services (`detector/detector/buffer.py`, `detector/detector/picks.py`,
`detector/detector/detection.py`, `detector/detector/seisbench_backend.py`,
`locator/locator/associator.py`, `locator/locator/solver.py`,
`detector/detector/utils.py`) and proves or refutes the frozen claims
about them.  Machine floats are modelled as rationals; external numeric
collaborators (obspy, numpy's least-squares solver, the geometry kernels)
are abstracted as explicit function parameters so that the theorems hold
for every possible behaviour of those collaborators.
-/

namespace SeisStream

/-- Python's `int()` applied to a real value: truncation toward zero. -/
def pyInt (q : ℚ) : ℤ :=
  if 0 ≤ q then ⌊q⌋ else ⌈q⌉

/-- Python's `round()` on a real value: round half to even. -/
def pyRound (q : ℚ) : ℤ :=
  let f : ℤ := ⌊q⌋
  let frac : ℚ := q - f
  if frac < 1 / 2 then f
  else if 1 / 2 < frac then f + 1
  else if f % 2 = 0 then f else f + 1

/-! ## RollingTraceBuffer (`detector/detector/buffer.py`) -/

/-- One per-source entry of the rolling buffer: the dict
`{"start": ..., "end": ..., "samprate": ..., "samples": ...}` kept by
`RollingTraceBuffer`. -/
structure TraceBuf where
  start : ℚ
  end_ : ℚ
  samprate : ℚ
  samples : List ℚ
deriving DecidableEq, Repr

/-- The sample-dropping part of `add_segment`'s trim (buffer.py lines
29-34): `trim_samples = int(np.ceil((cutoff - start) * samprate))`,
capped at `len(samples) - 1` (never below 0); if non-zero, drop that many
leading samples and advance `start` by `dropped / samprate`. -/
def dropStage (cutoff : ℚ) (b : TraceBuf) : TraceBuf :=
  let trim : ℤ := ⌈(cutoff - b.start) * b.samprate⌉
  if 0 < trim then
    let trim2 : ℤ := min trim (max ((b.samples.length : ℤ) - 1) 0)
    if trim2 ≠ 0 then
      { b with samples := b.samples.drop trim2.toNat,
               start := b.start + (trim2 : ℚ) / b.samprate }
    else b
  else b

/-- The trimming stage of `RollingTraceBuffer.add_segment`
(buffer.py lines 27-37): compute `cutoff = end - max_seconds`; if
`start < cutoff`, run `dropStage` and finally clamp `start` up to
`cutoff`. -/
def trimBuf (maxSeconds : ℚ) (b : TraceBuf) : TraceBuf :=
  let cutoff : ℚ := b.end_ - maxSeconds
  if b.start < cutoff then
    let b1 : TraceBuf := dropStage cutoff b
    if b1.start < cutoff then { b1 with start := cutoff } else b1
  else b

/-- The append stage of `add_segment` (buffer.py lines 18-25): a fresh
source id installs the segment as given; an existing one concatenates the
samples, overwrites `end` with the caller-supplied `end`, and keeps the
stored `start` and `samprate`. -/
def appendStage (prev : Option TraceBuf) (start end_ samprate : ℚ)
    (samples : List ℚ) : TraceBuf :=
  match prev with
  | none => ⟨start, end_, samprate, samples⟩
  | some b => ⟨b.start, end_, b.samprate, b.samples ++ samples⟩

/-- `RollingTraceBuffer.add_segment` on a single source id: append, then
trim to `max_seconds`. -/
def addSegmentBuf (maxSeconds : ℚ) (prev : Option TraceBuf)
    (start end_ samprate : ℚ) (samples : List ℚ) : TraceBuf :=
  trimBuf maxSeconds (appendStage prev start end_ samprate samples)

/-- The `_buffers` dict of a `RollingTraceBuffer`. -/
def Store : Type := String → Option TraceBuf

/-- One call to `RollingTraceBuffer.add_segment`, with the caller-supplied
arguments of buffer.py's signature. -/
structure Call where
  sid : String
  start : ℚ
  end_ : ℚ
  samprate : ℚ
  samples : List ℚ
deriving DecidableEq, Repr

/-- `RollingTraceBuffer.add_segment` acting on the `_buffers` dict. -/
def addSegment (maxSeconds : ℚ) (st : Store) (c : Call) : Store :=
  fun s =>
    if s = c.sid then
      some (addSegmentBuf maxSeconds (st c.sid) c.start c.end_ c.samprate c.samples)
    else st s

/-- A freshly constructed `RollingTraceBuffer`: no buffers. -/
def emptyStore : Store := fun _ => none

/-- The state of the `_buffers` dict after a sequence of `add_segment`
calls. -/
def runCalls (maxSeconds : ℚ) (calls : List Call) : Store :=
  calls.foldl (addSegment maxSeconds) emptyStore

/-- An `add_segment` call as constrained by claim C1: positive sample
rate and a non-empty samples array. -/
def GoodCall (c : Call) : Prop := 0 < c.samprate ∧ c.samples ≠ []

instance : DecidablePred GoodCall := fun c => by
  unfold GoodCall; infer_instance

/-- The per-buffer invariant of C1 plus the bookkeeping facts needed to
maintain it: positive stored sample rate, at least one sample, and the
span bound. -/
def BufInv (maxSeconds : ℚ) (b : TraceBuf) : Prop :=
  0 < b.samprate ∧ b.samples ≠ [] ∧
    b.end_ - b.start ≤ maxSeconds + 1 / b.samprate

/-- The whole-store invariant: every installed buffer satisfies
`BufInv`. -/
def StoreInv (maxSeconds : ℚ) (st : Store) : Prop :=
  ∀ sid b, st sid = some b → BufInv maxSeconds b

lemma getLast?_drop_of_lt {α : Type} :
    ∀ (l : List α) (k : ℕ), k < l.length → (l.drop k).getLast? = l.getLast? := by
  intro l
  induction l with
  | nil => intro k h; simp at h
  | cons a t ih =>
    intro k h
    cases k with
    | zero => rfl
    | succ k' =>
      have ht : k' < t.length := by simpa using h
      cases t with
      | nil => simp at ht
      | cons b t' =>
        rw [List.drop_succ_cons, List.getLast?_cons_cons]
        exact ih k' ht

/-- `dropStage` never touches the stored `end` or `samprate`. -/
lemma dropStage_end_samprate (cutoff : ℚ) (b : TraceBuf) :
    (dropStage cutoff b).end_ = b.end_ ∧ (dropStage cutoff b).samprate = b.samprate := by
  unfold dropStage
  dsimp only
  split
  · split <;> exact ⟨rfl, rfl⟩
  · exact ⟨rfl, rfl⟩

/-- `dropStage` drops a strict prefix of a non-empty samples list. -/
lemma dropStage_samples (cutoff : ℚ) (b : TraceBuf) (hb : b.samples ≠ []) :
    ∃ k : ℕ, k < b.samples.length ∧ (dropStage cutoff b).samples = b.samples.drop k := by
  have hlen : 0 < b.samples.length := List.length_pos.mpr hb
  unfold dropStage
  dsimp only
  split
  · rename_i h1
    split
    · rename_i h2
      refine ⟨(min ⌈(cutoff - b.start) * b.samprate⌉
          (max ((b.samples.length : ℤ) - 1) 0)).toNat, ?_, rfl⟩
      have hmin : min ⌈(cutoff - b.start) * b.samprate⌉
          (max ((b.samples.length : ℤ) - 1) 0) ≤ (b.samples.length : ℤ) - 1 := by
        have := min_le_right ⌈(cutoff - b.start) * b.samprate⌉
          (max ((b.samples.length : ℤ) - 1) 0)
        omega
      omega
    · exact ⟨0, hlen, by simp⟩
  · exact ⟨0, hlen, by simp⟩

/-- Trimming never touches the stored `end` or `samprate`. -/
lemma trimBuf_end_samprate (m : ℚ) (b : TraceBuf) :
    (trimBuf m b).end_ = b.end_ ∧ (trimBuf m b).samprate = b.samprate := by
  unfold trimBuf
  dsimp only
  split
  · split
    · exact ⟨(dropStage_end_samprate _ b).1, (dropStage_end_samprate _ b).2⟩
    · exact dropStage_end_samprate _ b
  · exact ⟨rfl, rfl⟩

/-- Trimming drops a strict prefix of a non-empty samples list. -/
lemma trimBuf_samples (m : ℚ) (b : TraceBuf) (hb : b.samples ≠ []) :
    ∃ k : ℕ, k < b.samples.length ∧ (trimBuf m b).samples = b.samples.drop k := by
  have hlen : 0 < b.samples.length := List.length_pos.mpr hb
  unfold trimBuf
  dsimp only
  split
  · obtain ⟨k, hk, hs⟩ := dropStage_samples (b.end_ - m) b hb
    split
    · exact ⟨k, hk, hs⟩
    · exact ⟨k, hk, hs⟩
  · exact ⟨0, hlen, by simp⟩

/-- After trimming, the buffer spans at most `max_seconds`. -/
lemma trimBuf_bound (m : ℚ) (b : TraceBuf) :
    (trimBuf m b).end_ - (trimBuf m b).start ≤ m := by
  unfold trimBuf
  dsimp only
  split
  · rename_i hcut
    split
    · rename_i hlt
      have he := (dropStage_end_samprate (b.end_ - m) b).1
      dsimp only
      rw [he]
      linarith
    · rename_i hge
      push_neg at hge
      have he := (dropStage_end_samprate (b.end_ - m) b).1
      rw [he]
      linarith
  · rename_i hge
    push_neg at hge
    linarith

/-- One `add_segment` call keeps the per-buffer invariant and leaves the
just-appended final sample in place. -/
lemma addSegmentBuf_inv (m : ℚ) (prev : Option TraceBuf)
    (hprev : ∀ b, prev = some b → 0 < b.samprate ∧ b.samples ≠ [])
    (start end_ samprate : ℚ) (hsr : 0 < samprate) (samples : List ℚ)
    (hs : samples ≠ []) :
    BufInv m (addSegmentBuf m prev start end_ samprate samples) ∧
      (addSegmentBuf m prev start end_ samprate samples).samples.getLast? =
        samples.getLast? := by
  unfold addSegmentBuf
  set buf0 : TraceBuf := appendStage prev start end_ samprate samples with hbuf0
  have h0 : 0 < buf0.samprate ∧ buf0.samples ≠ [] ∧
      buf0.samples.getLast? = samples.getLast? := by
    rw [hbuf0]
    unfold appendStage
    cases prev with
    | none => exact ⟨hsr, hs, rfl⟩
    | some b =>
      obtain ⟨hb1, _⟩ := hprev b rfl
      refine ⟨hb1, ?_, ?_⟩
      · simp [hs]
      · exact List.getLast?_append_of_ne_nil _ hs
  obtain ⟨hsr0, hne0, hl0⟩ := h0
  obtain ⟨k, hk, hdrop⟩ := trimBuf_samples m buf0 hne0
  obtain ⟨hend, hrate⟩ := trimBuf_end_samprate m buf0
  have hlen : (trimBuf m buf0).samples.length = buf0.samples.length - k := by
    rw [hdrop]; exact List.length_drop k buf0.samples
  constructor
  · refine ⟨?_, ?_, ?_⟩
    · rw [hrate]; exact hsr0
    · have : 0 < (trimBuf m buf0).samples.length := by omega
      exact List.length_pos.mp this
    · have h1 : 0 < 1 / (trimBuf m buf0).samprate := by
        rw [hrate]; exact one_div_pos.mpr hsr0
      have h2 := trimBuf_bound m buf0
      linarith
  · rw [hdrop, getLast?_drop_of_lt buf0.samples k hk]
    exact hl0

/-- `add_segment` preserves the whole-store invariant. -/
lemma addSegment_storeInv (m : ℚ) (st : Store) (hst : StoreInv m st)
    (c : Call) (hc : GoodCall c) : StoreInv m (addSegment m st c) := by
  intro sid b hb
  unfold addSegment at hb
  by_cases h : sid = c.sid
  · rw [if_pos h] at hb
    have hbeq : b = addSegmentBuf m (st c.sid) c.start c.end_ c.samprate c.samples :=
      (Option.some.inj hb).symm
    rw [hbeq]
    exact (addSegmentBuf_inv m (st c.sid)
      (fun b0 h0 => ⟨(hst c.sid b0 h0).1, (hst c.sid b0 h0).2.1⟩)
      c.start c.end_ c.samprate hc.1 c.samples hc.2).1
  · rw [if_neg h] at hb
    exact hst sid b hb

/-- Running only good calls keeps the whole-store invariant. -/
lemma runCalls_storeInv (m : ℚ) :
    ∀ (calls : List Call) (st : Store), StoreInv m st →
      (∀ c ∈ calls, GoodCall c) → StoreInv m (calls.foldl (addSegment m) st) := by
  intro calls
  induction calls with
  | nil => intro st hst _; exact hst
  | cons c rest ih =>
    intro st hst hgood
    simp only [List.foldl_cons]
    exact ih (addSegment m st c) (addSegment_storeInv m st hst c (hgood c (by simp)))
      (fun d hd => hgood d (by simp [hd]))

/-- C1: after every `add_segment` call in a sequence of calls with
positive sample rates and non-empty sample arrays, every installed buffer
satisfies `end - start ≤ max_seconds + 1/samprate` and holds at least one
sample, and the buffer of the source id just appended to still ends with
the most recently appended sample. -/
theorem buffer_bound_C1 (m : ℚ) (_hm : 0 < m) (pre : List Call) (c : Call)
    (hgood : ∀ d ∈ pre ++ [c], GoodCall d)
    (sid : String) (b : TraceBuf)
    (hb : runCalls m (pre ++ [c]) sid = some b) :
    (b.end_ - b.start ≤ m + 1 / b.samprate ∧ b.samples ≠ []) ∧
      (sid = c.sid → b.samples.getLast? = c.samples.getLast?) := by
  have hpre : ∀ d ∈ pre, GoodCall d := fun d hd => hgood d (by simp [hd])
  have hc : GoodCall c := hgood c (by simp)
  have hinv : StoreInv m (runCalls m pre) :=
    runCalls_storeInv m pre emptyStore (fun sid b h => by simp [emptyStore] at h) hpre
  have hrun : runCalls m (pre ++ [c]) = addSegment m (runCalls m pre) c := by
    unfold runCalls
    rw [List.foldl_append]
    rfl
  rw [hrun] at hb
  constructor
  · have hinv' : StoreInv m (addSegment m (runCalls m pre) c) :=
      addSegment_storeInv m (runCalls m pre) hinv c hc
    obtain ⟨_, h2, h3⟩ := hinv' sid b hb
    exact ⟨h3, h2⟩
  · intro hsid
    unfold addSegment at hb
    rw [if_pos hsid] at hb
    have hbeq : b = addSegmentBuf m ((runCalls m pre) c.sid)
        c.start c.end_ c.samprate c.samples := (Option.some.inj hb).symm
    rw [hbeq]
    exact (addSegmentBuf_inv m ((runCalls m pre) c.sid)
      (fun b0 h0 => ⟨(hinv c.sid b0 h0).1, (hinv c.sid b0 h0).2.1⟩)
      c.start c.end_ c.samprate hc.1 c.samples hc.2).2

/-- Witness for C1 at a concrete run: one call of 2 samples at 1 Hz with
`max_seconds = 10`, which trims and clamps. -/
theorem buffer_bound_C1_witness :
    ((20 : ℚ) - 10 ≤ 10 + 1 / 1 ∧ ([2] : List ℚ) ≠ []) ∧
      ([2] : List ℚ).getLast? = ([1, 2] : List ℚ).getLast? := by
  have h := buffer_bound_C1 10 (by norm_num) []
    ⟨"XX.STA..HHZ", 0, 20, 1, [1, 2]⟩
    (by intro d hd; simp at hd; subst hd; exact ⟨by norm_num, by simp⟩)
    "XX.STA..HHZ" ⟨10, 20, 1, [2]⟩
    (by norm_num [runCalls, addSegment, emptyStore, addSegmentBuf,
      appendStage, trimBuf, dropStage])
  exact ⟨h.1, h.2 rfl⟩

/-- C2: the code of `buffer.py` at the failing input of its own unit test
`test_add_segment_computes_end_from_sample_count` (start 10.0, samprate
2.0, 4 samples): `add_segment` as written requires a caller-supplied
`end` and stores it verbatim (`buf["end"] = end`), so with `end = 999`
the stored `end` is `999` and not `start + (n - 1)/samprate = 11.5`
as the test, `main.py`'s 4-argument call, and the spec all require. -/
theorem addSegment_end_C2 :
    (addSegmentBuf 10000 none 10 999 2 [0, 1, 2, 3]).end_ = 999 ∧
      (999 : ℚ) ≠ 10 + ((4 : ℚ) - 1) / 2 := by
  constructor
  · norm_num [addSegmentBuf, appendStage, trimBuf, dropStage]
  · norm_num

/-- C3 counterexample: `add_segment` called with `samprate = 0` does not
fail — no `InvalidSampleRate` error exists anywhere in the repository —
and the buffer state changes: the segment is installed. -/
theorem addSegment_no_error_C3_cex :
    addSegment 20 emptyStore ⟨"XX.STA..HHZ", 0, 5, 0, [1]⟩ "XX.STA..HHZ" =
      some ⟨0, 5, 0, [1]⟩ := by
  norm_num [addSegment, emptyStore, addSegmentBuf, appendStage, trimBuf, dropStage]

/-- C3 amended: `add_segment` performs no sample-rate validation at all.
For every sample rate — including `samprate ≤ 0` — the call completes
without error and leaves a buffer installed for the source id. -/
theorem addSegment_no_error_C3 (m : ℚ) (st : Store) (c : Call) :
    ∃ b, addSegment m st c c.sid = some b := by
  unfold addSegment
  exact ⟨_, by rw [if_pos rfl]⟩

/-! ## Pick dedup filtering (`detector/detector/picks.py`) -/

/-- Ordering of picks by onset time, the key `item[0]` of Python's
`sorted(picks, key=lambda item: item[0])`. -/
def tsLe (a b : ℚ × ℚ) : Prop := a.1 ≤ b.1

instance : DecidableRel tsLe := fun a b => by unfold tsLe; infer_instance

instance : IsTotal (ℚ × ℚ) tsLe := ⟨fun a b => le_total a.1 b.1⟩

instance : IsTrans (ℚ × ℚ) tsLe := ⟨fun _ _ _ h1 h2 => le_trans h1 h2⟩

/-- Strict ordering of picks by onset time. -/
def tsLt (a b : ℚ × ℚ) : Prop := a.1 < b.1

instance : IsAntisymm (ℚ × ℚ) tsLt :=
  ⟨fun _ _ h1 h2 => absurd (lt_trans h1 h2) (lt_irrefl _)⟩

/-- `_keep_all_picks` (picks.py lines 6-16): return the list unchanged;
the new `last_ts_on` is the final pick's onset, bumped up to the old
`last_ts_on` if that was larger. -/
def keepAllPicks (picksList : List (ℚ × ℚ)) (lastTsOn : Option ℚ) :
    List (ℚ × ℚ) × Option ℚ :=
  match picksList with
  | [] => ([], lastTsOn)
  | p :: rest =>
    let latest : ℚ := ((p :: rest).getLast (List.cons_ne_nil p rest)).1
    let latest2 : ℚ :=
      match lastTsOn with
      | some v => if latest < v then v else latest
      | none => latest
    (p :: rest, some latest2)

/-- The acceptance loop of `filter_picks` (picks.py lines 28-34): accept
a pick iff `last_ts_on is None` or `t_on - last_ts_on > window_seconds`;
on accept advance `last_ts_on` to the pick's onset. -/
def dedupLoop (w : ℚ) : List (ℚ × ℚ) → Option ℚ → List (ℚ × ℚ) × Option ℚ
  | [], latest => ([], latest)
  | p :: rest, none =>
    let r := dedupLoop w rest (some p.1)
    (p :: r.1, r.2)
  | p :: rest, some v =>
    if w < p.1 - v then
      let r := dedupLoop w rest (some p.1)
      (p :: r.1, r.2)
    else dedupLoop w rest (some v)

/-- `filter_picks` (picks.py lines 19-36): sort by onset; if
`window_seconds ≤ 0` keep everything via `_keep_all_picks`, otherwise run
the dedup acceptance loop. -/
def filter_picks (picks : List (ℚ × ℚ)) (lastTsOn : Option ℚ)
    (windowSeconds : ℚ) : List (ℚ × ℚ) × Option ℚ :=
  let picksList := List.insertionSort tsLe picks
  if windowSeconds ≤ 0 then keepAllPicks picksList lastTsOn
  else dedupLoop windowSeconds picksList lastTsOn

/-- `_keep_all_picks` only ever moves `last_ts_on` forward. -/
lemma keepAllPicks_mono (l : List (ℚ × ℚ)) (v : ℚ) :
    ∃ v', (keepAllPicks l (some v)).2 = some v' ∧ v ≤ v' := by
  match l with
  | [] => exact ⟨v, rfl, le_refl v⟩
  | p :: rest =>
    unfold keepAllPicks
    dsimp only
    by_cases h : ((p :: rest).getLast (List.cons_ne_nil p rest)).1 < v
    · rw [if_pos h]; exact ⟨v, rfl, le_refl v⟩
    · rw [if_neg h]; exact ⟨_, rfl, le_of_not_lt h⟩

/-- The dedup loop only ever moves `last_ts_on` forward. -/
lemma dedupLoop_mono (w : ℚ) (hw : 0 < w) :
    ∀ (l : List (ℚ × ℚ)) (v : ℚ),
      ∃ v', (dedupLoop w l (some v)).2 = some v' ∧ v ≤ v' := by
  intro l
  induction l with
  | nil => intro v; exact ⟨v, rfl, le_refl v⟩
  | cons p rest ih =>
    intro v
    unfold dedupLoop
    split
    · rename_i hacc
      obtain ⟨v', h1, h2⟩ := ih p.1
      exact ⟨v', h1, le_trans (by linarith) h2⟩
    · exact ih v

/-- Accepted picks are pairwise separated by more than `w`, and all lie
more than `w` after the incoming `last_ts_on`. -/
lemma dedupLoop_sep (w : ℚ) (hw : 0 < w) :
    ∀ (l : List (ℚ × ℚ)) (latest : Option ℚ),
      List.Pairwise (fun a b : ℚ × ℚ => w < b.1 - a.1) (dedupLoop w l latest).1 ∧
        (∀ v, latest = some v → ∀ q ∈ (dedupLoop w l latest).1, w < q.1 - v) := by
  intro l
  induction l with
  | nil =>
    intro latest
    exact ⟨List.Pairwise.nil, fun v _ q hq => absurd hq (List.not_mem_nil q)⟩
  | cons p rest ih =>
    intro latest
    match latest with
    | none =>
      obtain ⟨hpw, hall⟩ := ih (some p.1)
      constructor
      · exact List.Pairwise.cons (fun q hq => hall p.1 rfl q hq) hpw
      · intro v hv; cases hv
    | some v =>
      unfold dedupLoop
      split
      · rename_i hacc
        obtain ⟨hpw, hall⟩ := ih (some p.1)
        constructor
        · exact List.Pairwise.cons (fun q hq => hall p.1 rfl q hq) hpw
        · intro v' hv' q hq
          cases hv'
          rcases List.mem_cons.mp hq with h | h
          · subst h; exact hacc
          · have := hall p.1 rfl q h
            linarith
      · rename_i hrej
        obtain ⟨hpw, hall⟩ := ih (some v)
        exact ⟨hpw, fun v' hv' q hq => by cases hv'; exact hall v rfl q hq⟩

/-- C5: `filter_picks` never moves `last_ts_on` backwards, and with a
positive window any two distinct accepted picks have onsets more than
`W` apart. -/
theorem filter_picks_monotone_C5 (picks : List (ℚ × ℚ)) (lastTsOn : Option ℚ)
    (w : ℚ) :
    (∀ v, lastTsOn = some v →
      ∃ v', (filter_picks picks lastTsOn w).2 = some v' ∧ v ≤ v') ∧
    (0 < w →
      List.Pairwise (fun a b : ℚ × ℚ => w < b.1 - a.1)
        (filter_picks picks lastTsOn w).1) := by
  unfold filter_picks
  dsimp only
  constructor
  · intro v hv
    subst hv
    split
    · exact keepAllPicks_mono (List.insertionSort tsLe picks) v
    · rename_i hwpos
      push_neg at hwpos
      exact dedupLoop_mono w hwpos (List.insertionSort tsLe picks) v
  · intro hw
    rw [if_neg (by linarith)]
    exact (dedupLoop_sep w hw (List.insertionSort tsLe picks) lastTsOn).1

/-- Witness for C5 at a concrete input: picks `[(0,1), (5,6)]`,
`last_ts_on = 1`, window 2; `(5,6)` is accepted and `last_ts_on`
advances to 5. -/
theorem filter_picks_monotone_C5_witness :
    (∃ v', (filter_picks [(0, 1), (5, 6)] (some 1) 2).2 = some v' ∧ (1 : ℚ) ≤ v') ∧
      List.Pairwise (fun a b : ℚ × ℚ => 2 < b.1 - a.1)
        (filter_picks [(0, 1), (5, 6)] (some 1) 2).1 :=
  ⟨(filter_picks_monotone_C5 [(0, 1), (5, 6)] (some 1) 2).1 1 rfl,
   (filter_picks_monotone_C5 [(0, 1), (5, 6)] (some 1) 2).2 (by norm_num)⟩

/-- C6 counterexample: two permutations of the same picks with tied
onset times. Python's stable sort keeps input order among ties, so
`filter_picks` accepts `(0, 1)` from one ordering but `(0, 2)` from the
other: the accepted-pick sets differ. -/
theorem filter_picks_perm_C6_cex :
    ([((0 : ℚ), (1 : ℚ)), (0, 2)] : List (ℚ × ℚ)).Perm [(0, 2), (0, 1)] ∧
      (filter_picks [(0, 1), (0, 2)] none 1).1 = [(0, 1)] ∧
      (filter_picks [(0, 2), (0, 1)] none 1).1 = [(0, 2)] ∧
      ((0 : ℚ), (2 : ℚ)) ∈ (filter_picks [(0, 2), (0, 1)] none 1).1 ∧
      ((0 : ℚ), (2 : ℚ)) ∉ (filter_picks [(0, 1), (0, 2)] none 1).1 := by
  refine ⟨List.Perm.swap (0, 2) (0, 1) [], ?_, ?_, ?_, ?_⟩ <;>
    norm_num [filter_picks, dedupLoop, keepAllPicks,
      List.insertionSort, List.orderedInsert, tsLe]

/-- A stable sort of lists with pairwise-distinct keys is determined by
the multiset of elements. -/
lemma insertionSort_eq_of_perm_nodup (l1 l2 : List (ℚ × ℚ)) (hp : l1.Perm l2)
    (hnd : (l1.map Prod.fst).Nodup) :
    List.insertionSort tsLe l1 = List.insertionSort tsLe l2 := by
  have hperm : (List.insertionSort tsLe l1).Perm (List.insertionSort tsLe l2) :=
    (List.perm_insertionSort tsLe l1).trans
      (hp.trans (List.perm_insertionSort tsLe l2).symm)
  have hnd1 : ((List.insertionSort tsLe l1).map Prod.fst).Nodup :=
    ((List.perm_insertionSort tsLe l1).map Prod.fst).nodup_iff.mpr hnd
  have hnd2 : ((List.insertionSort tsLe l2).map Prod.fst).Nodup :=
    (hperm.map Prod.fst).nodup_iff.mp hnd1
  have hlt1 : (List.insertionSort tsLe l1).Sorted tsLt := by
    have hne := List.pairwise_map.mp hnd1
    exact ((List.sorted_insertionSort tsLe l1).and hne).imp
      (fun h => lt_of_le_of_ne h.1 h.2)
  have hlt2 : (List.insertionSort tsLe l2).Sorted tsLt := by
    have hne := List.pairwise_map.mp hnd2
    exact ((List.sorted_insertionSort tsLe l2).and hne).imp
      (fun h => lt_of_le_of_ne h.1 h.2)
  exact List.eq_of_perm_of_sorted hperm hlt1 hlt2

/-- C6 amended: for inputs with pairwise-distinct onset times,
`filter_picks` is permutation-invariant: any two permutations of the
pick list give the same accepted picks and the same `new_last_ts_on`.
(With tied onsets, stable-sort tie-breaking by input order can change
which pick of a tied pair is accepted — see the counterexample.) -/
theorem filter_picks_perm_C6 (l1 l2 : List (ℚ × ℚ)) (hp : l1.Perm l2)
    (hnd : (l1.map Prod.fst).Nodup) (lastTsOn : Option ℚ) (w : ℚ) :
    filter_picks l1 lastTsOn w = filter_picks l2 lastTsOn w := by
  unfold filter_picks
  rw [insertionSort_eq_of_perm_nodup l1 l2 hp hnd]

/-- Witness for C6 at a concrete pair of permuted inputs with distinct
onsets. -/
theorem filter_picks_perm_C6_witness :
    filter_picks [((1 : ℚ), (0 : ℚ)), (0, 0)] (some 5) 3 =
      filter_picks [(0, 0), (1, 0)] (some 5) 3 :=
  filter_picks_perm_C6 [(1, 0), (0, 0)] [(0, 0), (1, 0)]
    (List.Perm.swap (0, 0) (1, 0) []) (by norm_num) (some 5) 3

/-! ## STA/LTA detection (`detector/detector/detection.py`) -/

/-- The STA window length `detect_sta_lta` passes to `classic_sta_lta`
(detection.py line 30): Python `int(_segment["samprate"] * sta_seconds)`,
a truncation. -/
def nsta_of (samprate staSeconds : ℚ) : ℤ := pyInt (samprate * staSeconds)

/-- The LTA window length (detection.py line 31):
`int(_segment["samprate"] * lta_seconds)`. -/
def nlta_of (samprate ltaSeconds : ℚ) : ℤ := pyInt (samprate * ltaSeconds)

/-- `detect_sta_lta` (detection.py lines 17-44), with the external obspy
collaborators `preprocess_trace`, `classic_sta_lta` and `trigger_onset`
passed in as function parameters (exactly as the repo's unit tests
monkeypatch them). Trigger index pairs are converted to absolute seconds
`start + idx / samprate`. -/
def detect_sta_lta
    (preprocess : List ℚ → ℚ → ℚ → ℚ → List ℚ)
    (cStaLta : List ℚ → ℤ → ℤ → List ℚ)
    (triggerOnset : List ℚ → ℚ → ℚ → List (ℕ × ℕ))
    (segment : TraceBuf) (fmin fmax staSeconds ltaSeconds tOn tOff : ℚ) :
    List (ℚ × ℚ) :=
  let yf := preprocess segment.samples segment.samprate fmin fmax
  let cfg := cStaLta yf (nsta_of segment.samprate staSeconds)
    (nlta_of segment.samprate ltaSeconds)
  let pick := triggerOnset cfg tOn tOff
  pick.map (fun ij => (segment.start + (ij.1 : ℚ) / segment.samprate,
                       segment.start + (ij.2 : ℚ) / segment.samprate))

/-- C8 counterexample: at `samprate = 1`, `sta_seconds = 1.9` the window
length `detect_sta_lta` computes is `int(1.9) = 1`, while rounding to
the nearest integer would give `round(1.9) = 2`. -/
theorem sta_lta_window_C8_cex :
    nsta_of 1 (19 / 10) = 1 ∧ round ((1 : ℚ) * (19 / 10)) = 2 ∧
      nsta_of 1 (19 / 10) ≠ round ((1 : ℚ) * (19 / 10)) := by
  refine ⟨?_, ?_, ?_⟩ <;> norm_num [nsta_of, pyInt, round_eq]

/-- C8 amended: for non-negative sample rate and window durations (the
only meaningful configurations), `detect_sta_lta` passes
`nsta = int(samprate * sta_seconds)` and
`nlta = int(samprate * lta_seconds)` to the classic STA/LTA ratio,
i.e. the products truncated (floored), not rounded to nearest. -/
theorem sta_lta_window_C8 (samprate staSeconds ltaSeconds : ℚ)
    (h1 : 0 ≤ samprate) (h2 : 0 ≤ staSeconds) (h3 : 0 ≤ ltaSeconds) :
    nsta_of samprate staSeconds = ⌊samprate * staSeconds⌋ ∧
      nlta_of samprate ltaSeconds = ⌊samprate * ltaSeconds⌋ := by
  unfold nsta_of nlta_of pyInt
  rw [if_pos (mul_nonneg h1 h2), if_pos (mul_nonneg h1 h3)]
  exact ⟨rfl, rfl⟩

/-- Witness for C8 at `samprate = 2`, `sta_seconds = 1.5`,
`lta_seconds = 2.5`. -/
theorem sta_lta_window_C8_witness :
    nsta_of 2 (3 / 2) = ⌊(2 : ℚ) * (3 / 2)⌋ ∧
      nlta_of 2 (5 / 2) = ⌊(2 : ℚ) * (5 / 2)⌋ :=
  sta_lta_window_C8 2 (3 / 2) (5 / 2) (by norm_num) (by norm_num) (by norm_num)

/-! ## Multi-channel window assembly
(`detector/detector/seisbench_backend.py`, `_build_multichannel_window`) -/

/-- One row of the `[channels, N]` window (seisbench_backend.py lines
82-95): compute `offset = int(round((end_time - common_end) * samprate))`;
when non-negative trim that many samples from the tail
(`samples[: max(len(samples) - offset, 0)]`); take the last `N` samples
if enough remain, otherwise left-pad with zeros to length `N`. -/
def buildWindowRow (windowSamples : ℕ) (samprate commonEnd : ℚ)
    (seg : TraceBuf) : List ℚ :=
  let offset : ℤ := pyRound ((seg.end_ - commonEnd) * samprate)
  let usable : List ℚ :=
    if 0 ≤ offset then
      seg.samples.take (max ((seg.samples.length : ℤ) - offset) 0).toNat
    else seg.samples
  if windowSamples ≤ usable.length then
    usable.drop (usable.length - windowSamples)
  else
    List.replicate (windowSamples - usable.length) 0 ++ usable

/-- `_build_multichannel_window` (seisbench_backend.py lines 69-105):
`None` for an empty segment list; otherwise the per-channel rows
aligned to `common_end = min(seg["end"])`, paired with `common_end`.
The `channels` argument is only logged by the source and does not affect
the result. -/
def buildMultichannelWindow (windowSamples : ℕ) (segments : List TraceBuf)
    (_channels : List String) (samprate : ℚ) : Option (List (List ℚ) × ℚ) :=
  match segments with
  | [] => none
  | s0 :: rest =>
    let commonEnd : ℚ := (rest.map TraceBuf.end_).foldl min s0.end_
    some ((s0 :: rest).map (buildWindowRow windowSamples samprate commonEnd),
      commonEnd)

/-- Every assembled row has exactly `N = window_samples` entries. -/
lemma buildWindowRow_length (windowSamples : ℕ) (samprate commonEnd : ℚ)
    (seg : TraceBuf) :
    (buildWindowRow windowSamples samprate commonEnd seg).length = windowSamples := by
  unfold buildWindowRow
  dsimp only
  split <;> split
  all_goals
    first
      | (rw [List.length_drop]; omega)
      | (rw [List.length_append, List.length_replicate]; omega)

/-- C7 counterexample: a single channel holding 1 sample with
`N = input_samples = 2` is *not* rejected: the window builder left-pads
with a zero and returns a `[1, 2]` array, not "not ready". -/
theorem build_window_C7_cex :
    buildMultichannelWindow 2 [⟨0, 0, 1, [5]⟩] ["XX.STA..HHZ"] 1 =
      some ([[0, 5]], 0) := by
  norm_num [buildMultichannelWindow, buildWindowRow, pyRound]

/-- C7 amended: multi-channel window assembly returns "not ready"
(`None`) exactly when the channel-segment list is empty. For a non-empty
list it always returns a `[channels, N]` array — one row of exactly
`N = input_samples` entries per channel, tail-trimmed by
`round((end_i - common_end) * samprate)` and left-padded with zeros when
short — together with `common_end = min(end_i)`; channels with fewer than
`N` usable samples are zero-padded, not rejected. -/
theorem build_window_C7 (windowSamples : ℕ) (segments : List TraceBuf)
    (channels : List String) (samprate : ℚ) :
    (buildMultichannelWindow windowSamples segments channels samprate = none ↔
      segments = []) ∧
    (∀ data ce,
      buildMultichannelWindow windowSamples segments channels samprate =
        some (data, ce) →
      data.length = segments.length ∧
        (∀ row ∈ data, row.length = windowSamples) ∧
        ∃ s0 rest, segments = s0 :: rest ∧
          ce = (rest.map TraceBuf.end_).foldl min s0.end_) := by
  match segments with
  | [] =>
    refine ⟨by simp [buildMultichannelWindow], ?_⟩
    intro data ce h
    simp [buildMultichannelWindow] at h
  | s0 :: rest =>
    refine ⟨by simp [buildMultichannelWindow], ?_⟩
    intro data ce h
    unfold buildMultichannelWindow at h
    dsimp only at h
    obtain ⟨hdata, hce⟩ := Prod.mk.injEq _ _ _ _ ▸ Option.some.inj h
    refine ⟨?_, ?_, s0, rest, rfl, hce.symm⟩
    · rw [← hdata, List.length_map]
    · intro row hrow
      rw [← hdata] at hrow
      obtain ⟨seg, _, hseg⟩ := List.mem_map.mp hrow
      rw [← hseg]
      exact buildWindowRow_length _ _ _ _

/-- Witness for C7 at the one-short-channel input: the result is a
`[1, 2]` array with `common_end = 0`. -/
theorem build_window_C7_witness :
    ([[(0 : ℚ), 5]] : List (List ℚ)).length = [(⟨0, 0, 1, [5]⟩ : TraceBuf)].length ∧
      (∀ row ∈ ([[(0 : ℚ), 5]] : List (List ℚ)), row.length = 2) ∧
      ∃ s0 rest, ([⟨0, 0, 1, [5]⟩] : List TraceBuf) = s0 :: rest ∧
        (0 : ℚ) = (rest.map TraceBuf.end_).foldl min s0.end_ :=
  (build_window_C7 2 [⟨0, 0, 1, [5]⟩] ["XX.STA..HHZ"] 1).2 [[0, 5]] 0
    (by norm_num [buildMultichannelWindow, buildWindowRow, pyRound])

/-! ## SourceId parsing (`detector/detector/utils.py` and
`RollingTraceBuffer.parse_sid` in `detector/detector/buffer.py`).
Python strings are modelled as `List Char`. -/

/-- Python `s.split(sep)` for a one-character separator: splits at every
occurrence, keeping empty pieces (`"a__b".split("_") == ["a", "", "b"]`,
`"".split("_") == [""]`). -/
def splitOnChar (c : Char) : List Char → List (List Char)
  | [] => [[]]
  | x :: xs =>
    let r := splitOnChar c xs
    if x = c then [] :: r
    else
      match r with
      | [] => [[x]]
      | h :: t => (x :: h) :: t

/-- The literal `"FDSN:"`. -/
def fdsnColon : List Char := ['F', 'D', 'S', 'N', ':']

/-- Module-level `parse_sid` (utils.py lines 4-25): strip an optional
`FDSN:`; split underscore-form ids into net/sta/loc and join the
remaining parts into the channel; otherwise split dot-form ids into the
first four fields; empty input, too few fields or an empty channel give
`None`. -/
def utils_parse_sid (sid : List Char) :
    Option (List Char × List Char × List Char × List Char) :=
  if sid = [] then none
  else
    let cleaned := if sid.take 5 = fdsnColon then sid.drop 5 else sid
    if '_' ∈ cleaned then
      let parts := splitOnChar '_' cleaned
      if 4 ≤ parts.length then
        let net := parts.headD []
        let sta := (parts.drop 1).headD []
        let loc := (parts.drop 2).headD []
        let chan := (parts.drop 3).flatten
        if chan = [] then none else some (net, sta, loc, chan)
      else none
    else if '.' ∈ cleaned then
      let parts := splitOnChar '.' cleaned
      if 4 ≤ parts.length then
        let net := parts.headD []
        let sta := (parts.drop 1).headD []
        let loc := (parts.drop 2).headD []
        let chan := (parts.drop 3).headD []
        if chan = [] then none else some (net, sta, loc, chan)
      else none
    else none

/-- `RollingTraceBuffer.parse_sid` (buffer.py lines 49-74): same
algorithm written with early `return None` on fewer than 4 parts. -/
def buffer_parse_sid (sid : List Char) :
    Option (List Char × List Char × List Char × List Char) :=
  if sid = [] then none
  else
    let cleaned := if sid.take 5 = fdsnColon then sid.drop 5 else sid
    if '_' ∈ cleaned then
      let parts := splitOnChar '_' cleaned
      if parts.length < 4 then none
      else
        let net := parts.headD []
        let sta := (parts.drop 1).headD []
        let loc := (parts.drop 2).headD []
        let chan := (parts.drop 3).flatten
        if chan = [] then none else some (net, sta, loc, chan)
    else if '.' ∈ cleaned then
      let parts := splitOnChar '.' cleaned
      if parts.length < 4 then none
      else
        let net := parts.headD []
        let sta := (parts.drop 1).headD []
        let loc := (parts.drop 2).headD []
        let chan := (parts.drop 3).headD []
        if chan = [] then none else some (net, sta, loc, chan)
    else none

/-- `if 4 ≤ n then x else none` and `if n < 4 then none else x` agree. -/
lemma if_ge_eq_if_lt {α : Type} (n : ℕ) (x : Option α) :
    (if 4 ≤ n then x else none) = if n < 4 then none else x := by
  by_cases h : 4 ≤ n
  · rw [if_pos h, if_neg (by omega)]
  · rw [if_neg h, if_pos (by omega)]

/-- C10: the module-level `parse_sid` of utils.py and
`RollingTraceBuffer.parse_sid` of buffer.py are extensionally equal: on
every input string they return the same `(net, sta, loc, chan)` tuple or
both return `None`. -/
theorem parse_sid_equiv_C10 (sid : List Char) :
    utils_parse_sid sid = buffer_parse_sid sid := by
  unfold utils_parse_sid buffer_parse_sid
  simp only [if_ge_eq_if_lt]

/-! ## Pick association (`locator/locator/associator.py`) -/

/-- The `(net, sta, loc)` station key of `locator/locator/models.py`. -/
abbrev StationKey : Type := String × String × String

/-- A `Pick` row of `locator/locator/models.py`; `ts` is an epoch in
seconds. -/
structure LocPick where
  id : ℕ
  ts : ℚ
  phase : String
  net : String
  sta : String
  loc : String
  chan : String
  score : Option ℚ
deriving DecidableEq, Repr

/-- `Pick.station_key`. -/
def LocPick.station_key (p : LocPick) : StationKey := (p.net, p.sta, p.loc)

/-- An `Event` of `locator/locator/models.py`. -/
structure LocEvent where
  picks : List LocPick
  earliest_pick_time : ℚ
  association_key : String
deriving DecidableEq, Repr

/-- Ordering of locator picks by timestamp, the key of
`sorted(..., key=lambda pick: pick.ts)`. -/
def pickTsLe (a b : LocPick) : Prop := a.ts ≤ b.ts

instance : DecidableRel pickTsLe := fun a b => by unfold pickTsLe; infer_instance

instance : IsTotal LocPick pickTsLe := ⟨fun a b => le_total a.ts b.ts⟩

instance : IsTrans LocPick pickTsLe := ⟨fun _ _ _ h1 h2 => le_trans h1 h2⟩

/-- `per_station.setdefault(pick.station_key, pick)` on the
insertion-ordered dict, modelled as an association list: keep the first
pick seen for each station key. -/
def setdefaultStation (m : List (StationKey × LocPick)) (p : LocPick) :
    List (StationKey × LocPick) :=
  if ∃ kv ∈ m, kv.1 = p.station_key then m else m ++ [(p.station_key, p)]

/-- The `while i < len(ordered)` loop of `associate_picks`
(associator.py lines 60-117), with explicit fuel for the loop trip
count. Each iteration scans the window `[seed.ts, seed.ts + w]` from
index `i` (`j` advances over *all* picks in the window, used or not),
collects the unused picks per station (first pick per station wins),
sorts them by `ts`, and emits an event when the station and phase counts
reach the thresholds, marking the window's unused pick ids as used and
jumping `i` to `j`; otherwise `i` advances by one. `event_picks[0].ts`
is modelled with a default for the (crashing-in-Python) empty case. -/
def associateAux (w : ℚ) (minStations minPhases : ℤ)
    (keyFn : List LocPick → String) (ordered : List LocPick) :
    ℕ → ℕ → List ℕ → List LocEvent → List LocEvent
  | 0, _, _, events => events
  | fuel + 1, i, used, events =>
    match ordered.drop i with
    | [] => events
    | seed :: rest =>
      let windowPicks := (seed :: rest).takeWhile (fun p => decide (p.ts - seed.ts ≤ w))
      let candidates := windowPicks.filter (fun p => decide (p.id ∉ used))
      let windowIds := candidates.map LocPick.id
      let perStation := candidates.foldl setdefaultStation []
      let eventPicks := List.insertionSort pickTsLe (perStation.map Prod.snd)
      let stationCount := ((eventPicks.map LocPick.station_key).dedup).length
      let phaseCount := eventPicks.length
      if minStations ≤ (stationCount : ℤ) ∧ minPhases ≤ (phaseCount : ℤ) then
        associateAux w minStations minPhases keyFn ordered fuel
          (i + windowPicks.length) (used ++ windowIds)
          (events ++ [⟨eventPicks, (eventPicks.headD seed).ts, keyFn eventPicks⟩])
      else
        associateAux w minStations minPhases keyFn ordered fuel (i + 1) used events

/-- `associate_picks` (associator.py lines 15-120): empty input gives no
events; otherwise drop picks whose score is present and below
`min_score` (score-less picks are kept), sort by `ts`, and run the
association loop. The SHA-256 `association_key` computation is passed in
as the abstract `keyFn`. -/
def associate_picks (picks : List LocPick) (w : ℚ)
    (minStations minPhases : ℤ) (minScore : ℚ)
    (keyFn : List LocPick → String) : List LocEvent :=
  if picks = [] then []
  else
    let filtered := picks.filter (fun p =>
      match p.score with
      | none => true
      | some s => decide (minScore ≤ s))
    let ordered := List.insertionSort pickTsLe filtered
    associateAux w minStations minPhases keyFn ordered ordered.length 0 [] []

/-- `setdefault` keeps keys unique and stores each pick under its own
station key. -/
lemma setdefaultStation_inv (m : List (StationKey × LocPick)) (p : LocPick)
    (h1 : ∀ kv ∈ m, LocPick.station_key kv.2 = kv.1)
    (h2 : (m.map Prod.fst).Nodup) :
    (∀ kv ∈ setdefaultStation m p, LocPick.station_key kv.2 = kv.1) ∧
      ((setdefaultStation m p).map Prod.fst).Nodup := by
  unfold setdefaultStation
  split
  · exact ⟨h1, h2⟩
  · rename_i hnot
    push_neg at hnot
    constructor
    · intro kv hkv
      rcases List.mem_append.mp hkv with hm | hnew
      · exact h1 kv hm
      · rw [List.mem_singleton.mp hnew]
    · rw [List.map_append]
      rw [List.nodup_append]
      refine ⟨h2, List.nodup_singleton _, ?_⟩
      intro k hk hk1
      rw [List.mem_singleton.mp hk1] at hk
      obtain ⟨kv, hkv, hfst⟩ := List.mem_map.mp hk
      exact hnot kv hkv hfst

/-- The invariant of `setdefaultStation` carried through the fold over a
window's candidates. -/
lemma foldl_setdefault_inv (candidates : List LocPick) :
    ∀ m, (∀ kv ∈ m, LocPick.station_key kv.2 = kv.1) →
      (m.map Prod.fst).Nodup →
      (∀ kv ∈ candidates.foldl setdefaultStation m,
          LocPick.station_key kv.2 = kv.1) ∧
        ((candidates.foldl setdefaultStation m).map Prod.fst).Nodup := by
  induction candidates with
  | nil => intro m h1 h2; exact ⟨h1, h2⟩
  | cons p rest ih =>
    intro m h1 h2
    simp only [List.foldl_cons]
    obtain ⟨g1, g2⟩ := setdefaultStation_inv m p h1 h2
    exact ih _ g1 g2

/-- The picks of one association window have pairwise-distinct station
keys. -/
lemma perStation_values_pairwise (candidates : List LocPick) :
    List.Pairwise (fun a b : LocPick => a.station_key ≠ b.station_key)
      ((candidates.foldl setdefaultStation []).map Prod.snd) := by
  obtain ⟨h1, h2⟩ := foldl_setdefault_inv candidates [] (by simp) (by simp)
  have hkeys : List.Pairwise
      (fun a b : StationKey × LocPick => a.1 ≠ b.1)
      (candidates.foldl setdefaultStation []) := List.pairwise_map.mp h2
  have hvals : List.Pairwise
      (fun a b : StationKey × LocPick =>
        a.2.station_key ≠ b.2.station_key)
      (candidates.foldl setdefaultStation []) := by
    refine List.Pairwise.imp_of_mem ?_ hkeys
    intro a b ha hb hne
    rw [h1 a ha, h1 b hb]
    exact hne
  exact List.pairwise_map.mpr hvals

/-- The per-event guarantees of C4, as produced by the association
loop. -/
def EventOk (minStations minPhases : ℤ) (e : LocEvent) : Prop :=
  List.Pairwise (fun a b : LocPick => a.station_key ≠ b.station_key) e.picks ∧
    minStations ≤ (((e.picks.map LocPick.station_key).dedup).length : ℤ) ∧
    minPhases ≤ (e.picks.length : ℤ) ∧
    e.picks.Sorted pickTsLe

/-- Every event the association loop appends satisfies `EventOk`. -/
lemma associateAux_eventOk (w : ℚ) (minStations minPhases : ℤ)
    (keyFn : List LocPick → String) (ordered : List LocPick) :
    ∀ (fuel i : ℕ) (used : List ℕ) (events : List LocEvent),
      (∀ e ∈ events, EventOk minStations minPhases e) →
      ∀ e ∈ associateAux w minStations minPhases keyFn ordered fuel i used events,
        EventOk minStations minPhases e := by
  intro fuel
  induction fuel with
  | zero =>
    intro i used events hev e he
    exact hev e he
  | succ n ih =>
    intro i used events hev e he
    unfold associateAux at he
    match hdrop : ordered.drop i with
    | [] =>
      rw [hdrop] at he
      exact hev e he
    | seed :: rest =>
      rw [hdrop] at he
      dsimp only at he
      split at he
      · rename_i hguard
        refine ih _ _ _ ?_ e he
        intro e' he'
        rcases List.mem_append.mp he' with hold | hnew
        · exact hev e' hold
        · rw [List.mem_singleton.mp hnew]
          refine ⟨?_, hguard.1, hguard.2, ?_⟩
          · exact (List.Perm.pairwise_iff (fun h => Ne.symm h)
              (List.perm_insertionSort pickTsLe _)).mpr
              (perStation_values_pairwise _)
          · exact List.sorted_insertionSort pickTsLe _
      · exact ih _ _ _ hev e he

/-- C4: every event emitted by `associate_picks` has at most one pick
per station (pairwise-distinct station keys), at least `min_stations`
distinct stations, at least `min_phases` picks, and its picks sorted
ascending by timestamp. -/
theorem associate_picks_C4 (picks : List LocPick) (w : ℚ)
    (minStations minPhases : ℤ) (minScore : ℚ)
    (keyFn : List LocPick → String) (e : LocEvent)
    (he : e ∈ associate_picks picks w minStations minPhases minScore keyFn) :
    List.Pairwise (fun a b : LocPick => a.station_key ≠ b.station_key) e.picks ∧
      minStations ≤ (((e.picks.map LocPick.station_key).dedup).length : ℤ) ∧
      minPhases ≤ (e.picks.length : ℤ) ∧
      e.picks.Sorted pickTsLe := by
  unfold associate_picks at he
  split at he
  · exact absurd he (List.not_mem_nil e)
  · exact associateAux_eventOk w minStations minPhases keyFn _ _ _ _ []
      (fun e' he' => absurd he' (List.not_mem_nil e')) e he

/-- Witness for C4: a concrete two-station run (window 10 s,
`min_stations = min_phases = 2`) emits one event whose picks satisfy all
four guarantees. -/
theorem associate_picks_C4_witness :
    List.Pairwise (fun a b : LocPick => a.station_key ≠ b.station_key)
      [(⟨1, 0, "P", "XX", "A", "", "HHZ", none⟩ : LocPick),
        ⟨2, 1, "P", "XX", "B", "", "HHZ", none⟩] ∧
      (2 : ℤ) ≤ (((([(⟨1, 0, "P", "XX", "A", "", "HHZ", none⟩ : LocPick),
          ⟨2, 1, "P", "XX", "B", "", "HHZ", none⟩]).map
            LocPick.station_key).dedup).length : ℤ) ∧
      (2 : ℤ) ≤ (([(⟨1, 0, "P", "XX", "A", "", "HHZ", none⟩ : LocPick),
          ⟨2, 1, "P", "XX", "B", "", "HHZ", none⟩]).length : ℤ) ∧
      ([(⟨1, 0, "P", "XX", "A", "", "HHZ", none⟩ : LocPick),
        ⟨2, 1, "P", "XX", "B", "", "HHZ", none⟩] : List LocPick).Sorted pickTsLe :=
  associate_picks_C4
    [⟨1, 0, "P", "XX", "A", "", "HHZ", none⟩,
      ⟨2, 1, "P", "XX", "B", "", "HHZ", none⟩] 10 2 2 0 (fun _ => "k")
    ⟨[⟨1, 0, "P", "XX", "A", "", "HHZ", none⟩,
      ⟨2, 1, "P", "XX", "B", "", "HHZ", none⟩], 0, "k"⟩
    (by
      norm_num [associate_picks, associateAux, setdefaultStation,
        List.insertionSort, List.orderedInsert, pickTsLe, LocPick.station_key,
        List.takeWhile, List.dedup, List.pwFilter]
      decide)

/-! ## Origin estimation (`locator/locator/solver.py`)

The transcendental geometry kernels (`haversine_distance`, `azimuth`,
`compute_travel_time`, `azimuthal_gap` from `locator/locator/geometry.py`),
float `sqrt`, and numpy's least-squares solve are abstracted as oracle
functions; the solver's control flow, initial guess, and `np.clip`
box-projection are embedded exactly, so the bound theorems hold for every
behaviour of the numeric kernels. -/

/-- A `Station` row of `locator/locator/models.py`. -/
structure LocStation where
  net : String
  sta : String
  loc : String
  lat : ℚ
  lon : ℚ
  elev_m : ℚ
deriving DecidableEq, Repr

/-- The 4-component state vector `x = [lat, lon, depth_km, origin_epoch]`
of `estimate_origin`. -/
structure Vec4 where
  lat : ℚ
  lon : ℚ
  depth : ℚ
  origin : ℚ
deriving DecidableEq, Repr

/-- Componentwise `x + alpha * dx`. -/
def stepVec (x : Vec4) (alpha : ℚ) (dx : Vec4) : Vec4 :=
  ⟨x.lat + alpha * dx.lat, x.lon + alpha * dx.lon,
   x.depth + alpha * dx.depth, x.origin + alpha * dx.origin⟩

/-- `np.clip(v, lower, upper)` componentwise. -/
def clip4 (v lo hi : Vec4) : Vec4 :=
  ⟨min (max v.lat lo.lat) hi.lat, min (max v.lon lo.lon) hi.lon,
   min (max v.depth lo.depth) hi.depth, min (max v.origin lo.origin) hi.origin⟩

/-- Squared Euclidean norm of `alpha * dx`, used for the
`np.linalg.norm(alpha * dx) < 1e-5` stopping test (compared against
`(1e-5)^2`, which is equivalent since both sides are non-negative). -/
def sqNorm4 (alpha : ℚ) (dx : Vec4) : ℚ :=
  (alpha * dx.lat) ^ 2 + (alpha * dx.lon) ^ 2 +
    (alpha * dx.depth) ^ 2 + (alpha * dx.origin) ^ 2

/-- `v` lies in the `np.clip` box `[lo, hi]`. -/
def inBox (lo hi v : Vec4) : Prop :=
  lo.lat ≤ v.lat ∧ v.lat ≤ hi.lat ∧ lo.lon ≤ v.lon ∧ v.lon ≤ hi.lon ∧
    lo.depth ≤ v.depth ∧ v.depth ≤ hi.depth ∧
    lo.origin ≤ v.origin ∧ v.origin ≤ hi.origin

/-- The box ordering `lo ≤ hi` componentwise. -/
def boxLe (lo hi : Vec4) : Prop :=
  lo.lat ≤ hi.lat ∧ lo.lon ≤ hi.lon ∧ lo.depth ≤ hi.depth ∧
    lo.origin ≤ hi.origin

/-- The external numeric collaborators of `estimate_origin`: the
geometry kernels of `locator/locator/geometry.py`, float square root,
and `np.linalg.lstsq` composed with the finite-difference Jacobian
(deterministic in the current state vector; `none` models
`np.linalg.LinAlgError`). -/
structure SolverOracles where
  haversine : ℚ → ℚ → ℚ → ℚ → ℚ
  azimuth : ℚ → ℚ → ℚ → ℚ → ℚ
  travelTime : ℚ → ℚ → ℚ → ℚ
  azGap : List ℚ → ℚ
  sqrt : ℚ → ℚ
  lstsq : Vec4 → Option Vec4

/-- `stations.get(pick.station_key)` over the station map, modelled as an
association list (keys are unique in a dict, so first match wins). -/
def lookupStation : List (StationKey × LocStation) → StationKey → Option LocStation
  | [], _ => none
  | kv :: rest, k => if kv.1 = k then some kv.2 else lookupStation rest k

/-- The usable-pick selection loop of `estimate_origin` (solver.py lines
32-48): keep each pick paired with its station metadata, skipping picks
whose station is missing. -/
def usablePicks (stations : List (StationKey × LocStation))
    (picks : List LocPick) : List (LocPick × LocStation) :=
  picks.filterMap (fun p =>
    (lookupStation stations p.station_key).map (fun st => (p, st)))

/-- `min(pick_epochs)` (0 for the unreachable empty case). -/
def minEpochOf (usable : List (LocPick × LocStation)) : ℚ :=
  match usable with
  | [] => 0
  | ps :: rest => (rest.map (fun x => x.1.ts)).foldl min ps.1.ts

/-- `max(pick_epochs)` (0 for the unreachable empty case). -/
def maxEpochOf (usable : List (LocPick × LocStation)) : ℚ :=
  match usable with
  | [] => 0
  | ps :: rest => (rest.map (fun x => x.1.ts)).foldl max ps.1.ts

/-- The `residuals(params)` closure (solver.py lines 73-80):
`observed_epoch - (origin_epoch + travel_time(haversine(...), depth, vp))`
per usable pick. -/
def residualsOf (o : SolverOracles) (vp : ℚ)
    (usable : List (LocPick × LocStation)) (x : Vec4) : List ℚ :=
  usable.map (fun ps =>
    ps.1.ts - (x.origin +
      o.travelTime (o.haversine x.lat x.lon ps.2.lat ps.2.lon) x.depth vp))

/-- `float(np.sqrt(np.mean(r * r)))`: the RMS of a residual vector,
with the float square root taken from the oracles. -/
def rmsOf (o : SolverOracles) (r : List ℚ) : ℚ :=
  o.sqrt ((r.map (fun v => v ^ 2)).sum / (r.length : ℚ))

/-- The 8-step backtracking line search (solver.py lines 103-113):
try `alpha = 1, 1/2, ..., 1/128`; accept the first clipped step whose RMS
improves, returning it with the `alpha` used; `none` when no step
improves. -/
def lineSearch (o : SolverOracles) (vp : ℚ)
    (usable : List (LocPick × LocStation)) (lo hi x dx : Vec4)
    (rms0 : ℚ) : ℕ → ℚ → Option (Vec4 × ℚ)
  | 0, _ => none
  | n + 1, alpha =>
    let xTry := clip4 (stepVec x alpha dx) lo hi
    if rmsOf o (residualsOf o vp usable xTry) < rms0 then some (xTry, alpha)
    else lineSearch o vp usable lo hi x dx rms0 n (alpha / 2)

/-- The Gauss-Newton iteration of `estimate_origin` (solver.py lines
82-121): at most `max_iterations` rounds; a least-squares failure aborts
with `none`; a round with no line-search improvement, or an accepted step
of norm below `1e-5`, stops the iteration. -/
def solverLoop (o : SolverOracles) (vp : ℚ)
    (usable : List (LocPick × LocStation)) (lo hi : Vec4) :
    ℕ → Vec4 → Option Vec4
  | 0, x => some x
  | n + 1, x =>
    match o.lstsq x with
    | none => none
    | some dx =>
      match lineSearch o vp usable lo hi x dx
          (rmsOf o (residualsOf o vp usable x)) 8 1 with
      | none => some x
      | some (x', alpha) =>
        if sqNorm4 alpha dx < 1 / 10 ^ 10 then some x'
        else solverLoop o vp usable lo hi n x'

/-- An `ArrivalResidual` of `locator/locator/models.py`. -/
structure ArrRes where
  pick : LocPick
  distance_km : ℚ
  azimuth_deg : ℚ
  predicted_tt_seconds : ℚ
  residual_seconds : ℚ
deriving DecidableEq, Repr

/-- An `OriginEstimate` of `locator/locator/models.py`; `origin_epoch`
is the epoch the Python code wraps in `datetime.fromtimestamp`. -/
structure OriginEst where
  association_key : String
  origin_epoch : ℚ
  lat : ℚ
  lon : ℚ
  depth_km : ℚ
  rms_seconds : ℚ
  azimuthal_gap_deg : ℚ
  used_stations : ℕ
  arrivals : List ArrRes
deriving DecidableEq, Repr

/-- `estimate_origin` (solver.py lines 12-165): validate `vp_km_s` and
`min_stations` (raising `ValueError`, modelled as `Except.error`), select
usable picks, give up (`None`) below `min_stations`; otherwise start from
the first usable pick's station at depth 10 km and origin
`min(pick_epochs) - 2`, iterate with every accepted step clipped to
`[(-90, -180, 0, min-300), (90, 180, max_depth_km, max+300)]`, and build
the estimate from the final state vector. -/
def estimate_origin (o : SolverOracles) (event : LocEvent)
    (stations : List (StationKey × LocStation)) (vp : ℚ)
    (minStations : ℤ) (maxDepth : ℚ) (maxIter : ℕ) :
    Except String (Option OriginEst) :=
  if vp ≤ 0 then Except.error "vp_km_s must be > 0"
  else if minStations < 3 then Except.error "min_stations must be >= 3"
  else
    let usable := usablePicks stations event.picks
    if (usable.length : ℤ) < minStations then Except.ok none
    else
      match usable with
      | [] => Except.ok none
      | ps0 :: rest =>
        let x0 : Vec4 := ⟨ps0.2.lat, ps0.2.lon, 10, minEpochOf (ps0 :: rest) - 2⟩
        let lo : Vec4 := ⟨-90, -180, 0, minEpochOf (ps0 :: rest) - 300⟩
        let hi : Vec4 := ⟨90, 180, maxDepth, maxEpochOf (ps0 :: rest) + 300⟩
        match solverLoop o vp (ps0 :: rest) lo hi maxIter x0 with
        | none => Except.ok none
        | some xf =>
          let finalRes := residualsOf o vp (ps0 :: rest) xf
          let arrivals := (List.zip (ps0 :: rest) finalRes).map (fun psr =>
            let d := o.haversine xf.lat xf.lon psr.1.2.lat psr.1.2.lon
            ({ pick := psr.1.1, distance_km := d,
               azimuth_deg := o.azimuth xf.lat xf.lon psr.1.2.lat psr.1.2.lon,
               predicted_tt_seconds := o.travelTime d xf.depth vp,
               residual_seconds := psr.2 } : ArrRes))
          Except.ok (some
            { association_key := event.association_key,
              origin_epoch := xf.origin,
              lat := xf.lat,
              lon := xf.lon,
              depth_km := xf.depth,
              rms_seconds := rmsOf o finalRes,
              azimuthal_gap_deg := o.azGap (arrivals.map ArrRes.azimuth_deg),
              used_stations := arrivals.length,
              arrivals := arrivals })

/-- Concrete oracles for the solver witness: zero geometry, identity
square root, zero least-squares step. -/
def o0 : SolverOracles :=
  ⟨fun _ _ _ _ => 0, fun _ _ _ _ => 0, fun _ _ _ => 0, fun _ => 0,
   fun q => q, fun _ => some ⟨0, 0, 0, 0⟩⟩

/-- Three in-range stations for the solver witness. -/
def wstations : List (StationKey × LocStation) :=
  [(("XX", "A", ""), ⟨"XX", "A", "", 45, 30, 0⟩),
   (("XX", "B", ""), ⟨"XX", "B", "", 46, 31, 0⟩),
   (("XX", "C", ""), ⟨"XX", "C", "", 47, 32, 0⟩)]

/-- A three-pick event for the solver witness. -/
def wevent : LocEvent :=
  ⟨[⟨1, 0, "P", "XX", "A", "", "HHZ", none⟩,
    ⟨2, 1, "P", "XX", "B", "", "HHZ", none⟩,
    ⟨3, 2, "P", "XX", "C", "", "HHZ", none⟩], 0, "k"⟩

/-- The estimate `estimate_origin` produces for the witness inputs with
`max_iterations = 0`: the initial guess at the first station. -/
def west : OriginEst :=
  ⟨"k", -2, 45, 30, 10, 29 / 3, 0, 3,
   [⟨⟨1, 0, "P", "XX", "A", "", "HHZ", none⟩, 0, 0, 0, 2⟩,
    ⟨⟨2, 1, "P", "XX", "B", "", "HHZ", none⟩, 0, 0, 0, 3⟩,
    ⟨⟨3, 2, "P", "XX", "C", "", "HHZ", none⟩, 0, 0, 0, 4⟩]⟩

/-- `np.clip` lands in the box whenever the box is non-degenerate. -/
lemma clip4_inBox (v lo hi : Vec4) (h : boxLe lo hi) :
    inBox lo hi (clip4 v lo hi) := by
  unfold boxLe at h
  obtain ⟨h1, h2, h3, h4⟩ := h
  unfold inBox clip4
  exact ⟨le_min (le_max_right _ _) h1, min_le_right _ _,
    le_min (le_max_right _ _) h2, min_le_right _ _,
    le_min (le_max_right _ _) h3, min_le_right _ _,
    le_min (le_max_right _ _) h4, min_le_right _ _⟩

/-- Folding `min` never climbs above the seed. -/
lemma foldl_min_le (l : List ℚ) : ∀ a : ℚ, l.foldl min a ≤ a := by
  induction l with
  | nil => intro a; exact le_refl a
  | cons x t ih =>
    intro a
    exact le_trans (ih (min a x)) (min_le_left a x)

/-- Folding `max` never drops below the seed. -/
lemma le_foldl_max (l : List ℚ) : ∀ a : ℚ, a ≤ l.foldl max a := by
  induction l with
  | nil => intro a; exact le_refl a
  | cons x t ih =>
    intro a
    exact le_trans (le_max_left a x) (ih (max a x))

/-- The earliest usable epoch never exceeds the latest. -/
lemma minEpochOf_le_maxEpochOf (usable : List (LocPick × LocStation)) :
    minEpochOf usable ≤ maxEpochOf usable := by
  match usable with
  | [] => exact le_refl 0
  | ps :: rest =>
    unfold minEpochOf maxEpochOf
    exact le_trans (foldl_min_le _ ps.1.ts) (le_foldl_max _ ps.1.ts)

/-- Whatever the line search accepts is a clipped vector. -/
lemma lineSearch_clip (o : SolverOracles) (vp : ℚ)
    (usable : List (LocPick × LocStation)) (lo hi x dx : Vec4) (rms0 : ℚ) :
    ∀ (n : ℕ) (alpha : ℚ) (x' : Vec4) (a' : ℚ),
      lineSearch o vp usable lo hi x dx rms0 n alpha = some (x', a') →
      ∃ v, x' = clip4 v lo hi := by
  intro n
  induction n with
  | zero =>
    intro alpha x' a' h
    unfold lineSearch at h
    cases h
  | succ k ih =>
    intro alpha x' a' h
    unfold lineSearch at h
    dsimp only at h
    split at h
    · exact ⟨stepVec x alpha dx, (Prod.mk.injEq _ _ _ _ ▸ Option.some.inj h).1.symm⟩
    · exact ih (alpha / 2) x' a' h

/-- The Gauss-Newton loop never leaves the clip box. -/
lemma solverLoop_inBox (o : SolverOracles) (vp : ℚ)
    (usable : List (LocPick × LocStation)) (lo hi : Vec4)
    (hbox : boxLe lo hi) :
    ∀ (fuel : ℕ) (x : Vec4), inBox lo hi x →
      ∀ xf, solverLoop o vp usable lo hi fuel x = some xf → inBox lo hi xf := by
  intro fuel
  induction fuel with
  | zero =>
    intro x hx xf h
    rw [← Option.some.inj h]
    exact hx
  | succ n ih =>
    intro x hx xf h
    unfold solverLoop at h
    match hls : o.lstsq x with
    | none =>
      rw [hls] at h
      dsimp only at h
      cases h
    | some dx =>
      rw [hls] at h
      dsimp only at h
      match hsearch : lineSearch o vp usable lo hi x dx
          (rmsOf o (residualsOf o vp usable x)) 8 1 with
      | none =>
        rw [hsearch] at h
        dsimp only at h
        rw [← Option.some.inj h]
        exact hx
      | some (x', alpha) =>
        rw [hsearch] at h
        dsimp only at h
        obtain ⟨v, hv⟩ := lineSearch_clip o vp usable lo hi x dx _ 8 1 x' alpha hsearch
        have hx' : inBox lo hi x' := hv ▸ clip4_inBox v lo hi hbox
        split at h
        · rw [← Option.some.inj h]; exact hx'
        · exact ih x' hx' xf h

/-- C9: whenever `estimate_origin` returns an estimate, and
`max_depth_km ≥ 10` and the first usable pick's station coordinates are
themselves in range, the estimate satisfies `lat ∈ [-90, 90]`,
`lon ∈ [-180, 180]`, `depth_km ∈ [0, max_depth_km]`, and an origin epoch
within `[min(pick_epochs) - 300, max(pick_epochs) + 300]`: the initial
guess lies inside these bounds and every accepted step is clipped to
them. -/
theorem estimate_origin_bounds_C9 (o : SolverOracles) (event : LocEvent)
    (stations : List (StationKey × LocStation)) (vp : ℚ)
    (minStations : ℤ) (maxDepth : ℚ) (maxIter : ℕ) (est : OriginEst)
    (hdepth : 10 ≤ maxDepth)
    (hfirst : ∀ ps : LocPick × LocStation,
      (usablePicks stations event.picks).head? = some ps →
      -90 ≤ ps.2.lat ∧ ps.2.lat ≤ 90 ∧ -180 ≤ ps.2.lon ∧ ps.2.lon ≤ 180)
    (hres : estimate_origin o event stations vp minStations maxDepth maxIter =
      Except.ok (some est)) :
    -90 ≤ est.lat ∧ est.lat ≤ 90 ∧ -180 ≤ est.lon ∧ est.lon ≤ 180 ∧
      0 ≤ est.depth_km ∧ est.depth_km ≤ maxDepth ∧
      minEpochOf (usablePicks stations event.picks) - 300 ≤ est.origin_epoch ∧
      est.origin_epoch ≤ maxEpochOf (usablePicks stations event.picks) + 300 := by
  unfold estimate_origin at hres
  split at hres
  · exact absurd hres (by simp)
  · split at hres
    · exact absurd hres (by simp)
    · dsimp only at hres
      split at hres
      · exact absurd (Except.ok.inj hres) (by simp)
      · match hu : usablePicks stations event.picks with
        | [] => rw [hu] at hres; exact absurd (Except.ok.inj hres) (by simp)
        | ps0 :: rest =>
          rw [hu] at hres
          dsimp only at hres
          have hmm : minEpochOf (ps0 :: rest) ≤ maxEpochOf (ps0 :: rest) :=
            minEpochOf_le_maxEpochOf _
          have hbox : boxLe ⟨-90, -180, 0, minEpochOf (ps0 :: rest) - 300⟩
              ⟨90, 180, maxDepth, maxEpochOf (ps0 :: rest) + 300⟩ := by
            unfold boxLe
            refine ⟨by norm_num, by norm_num, by dsimp only; linarith,
              by dsimp only; linarith⟩
          obtain ⟨hla1, hla2, hlo1, hlo2⟩ := hfirst ps0 (by rw [hu]; rfl)
          have hx0 : inBox ⟨-90, -180, 0, minEpochOf (ps0 :: rest) - 300⟩
              ⟨90, 180, maxDepth, maxEpochOf (ps0 :: rest) + 300⟩
              ⟨ps0.2.lat, ps0.2.lon, 10, minEpochOf (ps0 :: rest) - 2⟩ := by
            unfold inBox
            refine ⟨hla1, hla2, hlo1, hlo2, by norm_num, by dsimp only; linarith,
              by dsimp only; linarith, by dsimp only; linarith⟩
          match hloop : solverLoop o vp (ps0 :: rest)
              ⟨-90, -180, 0, minEpochOf (ps0 :: rest) - 300⟩
              ⟨90, 180, maxDepth, maxEpochOf (ps0 :: rest) + 300⟩ maxIter
              ⟨ps0.2.lat, ps0.2.lon, 10, minEpochOf (ps0 :: rest) - 2⟩ with
          | none => rw [hloop] at hres; exact absurd (Except.ok.inj hres) (by simp)
          | some xf =>
            rw [hloop] at hres
            dsimp only at hres
            have hxf := solverLoop_inBox o vp (ps0 :: rest) _ _ hbox maxIter
              _ hx0 xf hloop
            have hest := Option.some.inj (Except.ok.inj hres)
            rw [← hest]
            unfold inBox at hxf
            dsimp only at hxf ⊢
            exact hxf

/-- Witness for C9: trivial geometry oracles (zero distances and travel
times, identity square root, zero Gauss-Newton step), three picks at
three in-range stations, `vp = 6`, `min_stations = 3`,
`max_depth_km = 80`, `max_iterations = 0`; the estimate is the initial
guess and satisfies all bounds. -/
theorem estimate_origin_bounds_C9_witness :
    -90 ≤ west.lat ∧ west.lat ≤ 90 ∧ -180 ≤ west.lon ∧ west.lon ≤ 180 ∧
      0 ≤ west.depth_km ∧ west.depth_km ≤ 80 ∧
      minEpochOf (usablePicks wstations wevent.picks) - 300 ≤ west.origin_epoch ∧
      west.origin_epoch ≤ maxEpochOf (usablePicks wstations wevent.picks) + 300 := by
  have hu : usablePicks wstations wevent.picks =
      [(⟨1, 0, "P", "XX", "A", "", "HHZ", none⟩, ⟨"XX", "A", "", 45, 30, 0⟩),
       (⟨2, 1, "P", "XX", "B", "", "HHZ", none⟩, ⟨"XX", "B", "", 46, 31, 0⟩),
       (⟨3, 2, "P", "XX", "C", "", "HHZ", none⟩, ⟨"XX", "C", "", 47, 32, 0⟩)] := by
    simp [usablePicks, lookupStation, LocPick.station_key, wstations, wevent,
      List.filterMap, Prod.mk.injEq]
  refine estimate_origin_bounds_C9 o0 wevent wstations 6 3 80 0 west
    (by norm_num) ?_ ?_
  · intro ps h
    rw [hu] at h
    simp only [List.head?_cons, Option.some.injEq] at h
    rw [← h]
    norm_num
  · simp only [estimate_origin, hu, minEpochOf, maxEpochOf, solverLoop,
      residualsOf, rmsOf, o0]
    norm_num [wevent, west]

end SeisStream
